import Mathlib

/-!
Shallow embedding of the G-code interpreter in `cnc.py` (classes `Program`,
`Block`, `Word`), together with theorems checking the natural-language
specification against it.

Modelling conventions:
* Python's dynamically typed values flowing through the interpreter are
  modelled by `PyVal` (int / float / str).  Float literals are modelled as
  exact rationals: the interpreter only parses, stores, compares and
  forwards them — it never performs float arithmetic — so `ℚ` is faithful
  for every literal appearing in a program text.
* Exceptions (`ValueError` from `int()` / `float()`, `IndexError` from
  indexing an empty string) are modelled by `Except PyErr`.
* Actuator methods of `MachineClient` only print; they are modelled as an
  emitted trace of `ActCall` values.  `print` warnings issued by
  `Program.parse` are collected in a warning list.
-/

namespace Cnc

/-- The Python exceptions the interpreter can raise while parsing. -/
inductive PyErr where
  | valueError
  | indexError
deriving DecidableEq

/-- Decidable equality for parse results, used to evaluate the embedding
on concrete inputs. -/
instance {ε α : Type _} [DecidableEq ε] [DecidableEq α] : DecidableEq (Except ε α)
  | .error e, .error f =>
    if h : e = f then .isTrue (by rw [h]) else .isFalse (fun c => h (Except.error.inj c))
  | .error _, .ok _ => .isFalse (fun c => Except.noConfusion c)
  | .ok _, .error _ => .isFalse (fun c => Except.noConfusion c)
  | .ok a, .ok b =>
    if h : a = b then .isTrue (by rw [h]) else .isFalse (fun c => h (Except.ok.inj c))

/-- A dynamically typed Python value as stored in `Word.number`,
`Block.number` and the machine state carried by `Program`. -/
inductive PyVal where
  | int (n : Int)
  | float (q : ℚ)
  | str (s : String)
deriving DecidableEq

/-- Python `==` between a dynamic value and an integer literal, as used in
`w.number == 6` etc.: an int compares by value, a float equals the integer
when its value does, a string never equals an int. -/
def PyVal.eqInt : PyVal → Int → Bool
  | .int n, m => n == m
  | .float q, m => q == (m : ℚ)
  | .str _, _ => false

/-- Value of a string of ASCII digits, most significant first. -/
def digitsVal (cs : List Char) : Nat :=
  cs.foldl (fun n c => 10 * n + (c.toNat - '0'.toNat)) 0

/-- A nonempty all-ASCII-digit string, or `none`. -/
def digitsToNat (cs : List Char) : Option Nat :=
  if !cs.isEmpty && cs.all Char.isDigit then some (digitsVal cs) else none

/-- Models Python `int(s)` on the inputs reachable in this program: an
optional sign followed by a nonempty run of ASCII digits.  (Surrounding
whitespace, underscore separators and non-ASCII digits, which Python also
accepts, cannot reach `int()` here and are not modelled.) -/
def pyInt (cs : List Char) : Option Int :=
  match cs with
  | '+' :: ds => (digitsToNat ds).map Int.ofNat
  | '-' :: ds => (digitsToNat ds).map (fun n => -(n : Int))
  | ds => (digitsToNat ds).map Int.ofNat

/-- Longest ASCII-digit prefix and the rest. -/
def takeDigits : List Char → List Char × List Char
  | [] => ([], [])
  | c :: cs =>
    if c.isDigit then
      let r := takeDigits cs
      (c :: r.1, r.2)
    else ([], c :: cs)

/-- Exact rational value of a decimal literal `⟨intDigits⟩.⟨fracDigits⟩`
scaled by `10 ^ e`: numerator and denominator are computed as integers and
normalized once by `mkRat`. -/
def decimalVal (intDigits fracDigits : List Char) (e : Int) : ℚ :=
  let num : Int :=
    Int.ofNat (digitsVal intDigits * Nat.pow 10 fracDigits.length + digitsVal fracDigits)
  let den : Nat := Nat.pow 10 fracDigits.length
  if 0 ≤ e then mkRat (num * Int.ofNat (Nat.pow 10 e.toNat)) den
  else mkRat num (den * Nat.pow 10 (-e).toNat)

/-- Unsigned part of Python `float(s)`: digits with an optional fractional
part, or a fractional part alone, with an optional decimal exponent. -/
def pyFloatUnsigned (cs : List Char) : Option ℚ :=
  let ip := takeDigits cs
  let fp : List Char × List Char :=
    match ip.2 with
    | '.' :: r => takeDigits r
    | _ => ([], ip.2)
  if ip.1.isEmpty && fp.1.isEmpty then none
  else
    match fp.2 with
    | [] => some (decimalVal ip.1 fp.1 0)
    | 'e' :: r => (pyInt r).map (decimalVal ip.1 fp.1)
    | 'E' :: r => (pyInt r).map (decimalVal ip.1 fp.1)
    | _ => none

/-- Models Python `float(s)` on the inputs reachable in this program: an
optionally signed finite decimal literal with optional exponent, valued as
an exact rational.  (`inf`/`nan`, underscore separators and surrounding
whitespace are not modelled.) -/
def pyFloat (cs : List Char) : Option ℚ :=
  match cs with
  | '+' :: r => pyFloatUnsigned r
  | '-' :: r => (pyFloatUnsigned r).map Rat.neg
  | r => pyFloatUnsigned r

/-- One G-code word: class `Word` of `cnc.py`. -/
structure Word where
  letter : Char
  number : PyVal
  priority : Nat
deriving DecidableEq

/-- The priority chain of `Word.parse` (`cnc.py` lines 277-297), a pure
function of the letter and the parsed number. -/
def wordPriority (letter : Char) (number : PyVal) : Nat :=
  if letter == 'F' then 1
  else if letter == 'S' then 2
  else if letter == 'T' then 3
  else if letter == 'M' && number.eqInt 6 then 4
  else if letter == 'M' && (number.eqInt 3 || number.eqInt 4 || number.eqInt 5) then 5
  else if letter == 'M' && (number.eqInt 7 || number.eqInt 8 || number.eqInt 9) then 6
  else if letter == 'G' && number.eqInt 28 then 7
  else if letter == 'G' && (number.eqInt 0 || number.eqInt 1) then 8
  else if letter == 'M' && number.eqInt 30 then 9
  else 10

/-- `Word.parse` (`cnc.py` lines 261-299).  `command[0]` on an empty string
raises `IndexError`; the `X`/`Y`/`Z`/`F` literals go through `float()`, a
`T` literal is kept as a string (`command.startswith("T")` is equivalent to
the first character being `T`), and every other literal goes through
`int()`; a failed conversion raises `ValueError`. -/
def Word.parse (command : String) : Except PyErr Word :=
  match command.data with
  | [] => .error .indexError
  | letter :: rest =>
    let number : Except PyErr PyVal :=
      if letter == 'X' || letter == 'Y' || letter == 'Z' || letter == 'F' then
        match pyFloat rest with
        | some q => .ok (.float q)
        | none => .error .valueError
      else if letter == 'T' then
        .ok (.str (String.mk rest))
      else
        match pyInt rest with
        | some n => .ok (.int n)
        | none => .error .valueError
    number.map (fun number => ⟨letter, number, wordPriority letter number⟩)

/-- One G-code block: class `Block` of `cnc.py`.  `number` is whatever
`Word.number` was assigned to it (`-1`, a Python int, when unset). -/
structure Block where
  number : PyVal
  words : List Word
deriving DecidableEq

/-- The recognized leading letters of `Block.parse` (`cnc.py` line 143). -/
def letters : List Char := ['N', 'G', 'T', 'S', 'M', 'X', 'Y', 'Z', 'F']

/-- The loop state of the scan in `Block.parse`: the block number seen so
far, the words accumulated so far, and the token being accumulated. -/
structure ScanState where
  block_number : PyVal
  words : List Word
  command : List Char
deriving DecidableEq

/-- One step of the character scan of `Block.parse` (`cnc.py` lines
145-156): a recognized letter closes and parses the current token (its
word going to the block number if its letter is `N`, to the word list
otherwise) and starts a new token; any other character extends the current
token. -/
def scanStep (st : ScanState) (c : Char) : Except PyErr ScanState :=
  if letters.contains c then
    if st.command.length > 0 then
      (Word.parse (String.mk st.command)).map (fun word =>
        -- Block number should be at the start of the block
        if word.letter == 'N' then
          { st with block_number := word.number, command := [c] }
        else
          { st with words := st.words ++ [word], command := [c] })
    else
      .ok { st with command := [c] }
  else
    .ok { st with command := st.command ++ [c] }

/-- Insert a word into a list strictly after every word of smaller
priority and before every word of priority greater than or equal. -/
def insertWord (w : Word) : List Word → List Word
  | [] => [w]
  | v :: vs => if v.priority < w.priority then v :: insertWord w vs else w :: v :: vs

/-- Models `words.sort(key=lambda w: w.priority)` (`cnc.py` line 158):
Python's sort is an ascending stable sort on the key, and this insertion
sort — which keeps each element before later elements of equal priority —
computes exactly that stable sort. -/
def sortWords : List Word → List Word
  | [] => []
  | w :: ws => insertWord w (sortWords ws)

/-- `Block.parse` (`cnc.py` lines 135-159): scan the characters, then
unconditionally parse the final accumulated token and append its word,
then sort the words by priority. -/
def Block.parse (data : String) : Except PyErr Block := do
  let st ← data.data.foldlM scanStep ⟨.int (-1), [], []⟩
  let word ← Word.parse (String.mk st.command)
  return ⟨st.block_number, sortWords (st.words ++ [word])⟩

/-- The machine state threaded through execution: the `tool, x, y, z`
arguments of `Block.run`, stored on the `Program` object between blocks. -/
structure MState where
  tool : PyVal
  x : PyVal
  y : PyVal
  z : PyVal
deriving DecidableEq

/-- One call to a `MachineClient` method, recorded as a trace event. -/
inductive ActCall where
  | home
  | move (x y z : PyVal)
  | move_x (value : PyVal)
  | move_y (value : PyVal)
  | move_z (value : PyVal)
  | set_feed_rate (value : PyVal)
  | set_spindle_speed (value : PyVal)
  | change_tool (tool_name : PyVal)
  | coolant_on
  | coolant_off
deriving DecidableEq

/-- Loop state of the coordinate-word scan inside the `G0`/`G1` branch of
`Block.run` (`cnc.py` lines 203-215). -/
structure AxisScan where
  x : PyVal
  y : PyVal
  z : PyVal
  move_x : Bool
  move_y : Bool
  move_z : Bool
deriving DecidableEq

/-- One step of the coordinate-word scan: an `X`/`Y`/`Z` word overwrites
that coordinate and marks its axis. -/
def axisScanStep (a : AxisScan) (cw : Word) : AxisScan :=
  if cw.letter == 'X' then { a with x := cw.number, move_x := true }
  else if cw.letter == 'Y' then { a with y := cw.number, move_y := true }
  else if cw.letter == 'Z' then { a with z := cw.number, move_z := true }
  else a

/-- The body of the word loop of `Block.run` (`cnc.py` lines 170-252),
for one word `w` of block `b`: returns the updated machine state and the
actuator calls made while executing `w`. -/
def runWord (b : Block) (st : MState) (w : Word) : MState × List ActCall :=
  if w.letter == 'S' then
    -- Spindle speed
    (st, [.set_spindle_speed w.number])
  else if w.letter == 'F' then
    -- Feed rate
    (st, [.set_feed_rate w.number])
  else if w.letter == 'T' then
    -- Select tool
    ({ st with tool := w.number }, [])
  else if w.letter == 'M' then
    if w.number.eqInt 3 || w.number.eqInt 4 then (st, [])
    else if w.number.eqInt 5 then (st, [])
    else if w.number.eqInt 6 then (st, [.change_tool st.tool])
    else if w.number.eqInt 7 || w.number.eqInt 8 then (st, [.coolant_on])
    else if w.number.eqInt 9 then (st, [.coolant_off])
    else if w.number.eqInt 30 then (st, [])
    else (st, [])
  else if w.letter == 'G' then
    if w.number.eqInt 0 || w.number.eqInt 1 then
      -- Move (0 fast, 1 linear): find coordinate words from block
      let a := b.words.foldl axisScanStep ⟨st.x, st.y, st.z, false, false, false⟩
      let st' := { st with x := a.x, y := a.y, z := a.z }
      -- Move linearly on multiple axis if coordinates for at least 2 axis
      -- were given, else move on a single axis.
      if (a.move_x && a.move_y) || (a.move_x && a.move_z) || (a.move_y && a.move_z) then
        (st', [.move a.x a.y a.z])
      else if a.move_x then (st', [.move_x a.x])
      else if a.move_y then (st', [.move_y a.y])
      else if a.move_z then (st', [.move_z a.z])
      else (st', [])
    else if w.number.eqInt 17 then (st, [])
    else if w.number.eqInt 21 then (st, [])
    else if w.number.eqInt 28 then
      -- Move to home
      ({ st with x := .float 0, y := .float 0, z := .float 0 }, [.home])
    else if w.number.eqInt 40 then (st, [])
    else if w.number.eqInt 49 then (st, [])
    else if w.number.eqInt 80 then (st, [])
    else if w.number.eqInt 91 then (st, [])
    else if w.number.eqInt 94 then (st, [])
    else (st, [])
  else (st, [])

/-- `Block.run` (`cnc.py` lines 161-253): execute the words in their
stored (priority-sorted) order, threading the machine state and
concatenating the emitted actuator calls. -/
def Block.run (b : Block) (st : MState) : MState × List ActCall :=
  b.words.foldl (fun acc w =>
    let r := runWord b acc.1 w
    (r.1, acc.2 ++ r.2)) (st, [])

/-- A parsed program together with the machine state stored on the Python
object by `Program.__init__` / mutated by `Program.run`. -/
structure Program where
  number : Int
  blocks : List Block
  tool : PyVal
  x : PyVal
  y : PyVal
  z : PyVal
deriving DecidableEq

/-- `Program.__init__` (`cnc.py` lines 69-75): stores the number and the
blocks and initializes the carried machine state. -/
def Program.init (number : Int) (blocks : List Block) : Program :=
  ⟨number, blocks, .str "", .float 0, .float 0, .float 0⟩

/-- The loop of `Program.run`: run the blocks sequentially, threading the
machine state. -/
def runBlocks (bs : List Block) (st : MState) : MState × List ActCall :=
  bs.foldl (fun acc b =>
    let r := b.run acc.1
    (r.1, acc.2 ++ r.2)) (st, [])

/-- `Program.run` (`cnc.py` lines 122-128): runs the blocks and writes the
final carried state back onto the program object (`self.tool`, `self.x`,
`self.y`, `self.z` are mutated in place). -/
def Program.run (p : Program) : Program × List ActCall :=
  let r := runBlocks p.blocks ⟨p.tool, p.x, p.y, p.z⟩
  ({ p with tool := r.1.tool, x := r.1.x, y := r.1.y, z := r.1.z }, r.2)

/-- Comment stripping of `Program.parse` (`cnc.py` lines 96-105): `(`
opens a comment, `)` closes it, neither is kept, and characters are kept
exactly when no comment is open. -/
def stripComments (line : String) : String :=
  String.mk (line.data.foldl
    (fun (acc : List Char × Bool) c =>
      if c == '(' then (acc.1, true)
      else if c == ')' then (acc.1, false)
      else if !acc.2 then (acc.1 ++ [c], acc.2)
      else acc)
    ([], false)).1

/-- `"".join(stripped_line.split())` (`cnc.py` line 107): removes every
whitespace character.  Python `str.split()` splits on any whitespace; the
ASCII whitespace characters are modelled. -/
def removeWhitespace (s : String) : String :=
  String.mk (s.data.filter (fun c =>
    !(c == ' ' || c == '\t' || c == '\n' || c == '\r' || c == '\x0b' || c == '\x0c')))

/-- Split a character list at every newline. -/
def splitNewlines : List Char → List (List Char)
  | [] => [[]]
  | '\n' :: cs => [] :: splitNewlines cs
  | c :: cs =>
    match splitNewlines cs with
    | [] => [[c]]
    | l :: ls => (c :: l) :: ls

/-- Models Python `str.splitlines()` for LF-separated text.  (Other line
terminators are not modelled; Python also drops a final empty line, which
this keeps — the empty line is skipped by the length check below, so the
parses agree.) -/
def splitLines (data : String) : List String :=
  (splitNewlines data.data).map String.mk

/-- Python `s.startswith(c)` for a one-character prefix, the only form the
source uses (`"%"` and `"O"`). -/
def startsWithChar (s : String) (c : Char) : Bool :=
  match s.data with
  | [] => false
  | d :: _ => d == c

/-- Python `str.isdigit()`: nonempty and all digits (ASCII digits
modelled). -/
def pyIsDigit (cs : List Char) : Bool :=
  !cs.isEmpty && cs.all Char.isDigit

/-- Loop state of `Program.parse`: the program number, blocks and
program-start flag of `cnc.py` lines 92-94, plus the warnings printed so
far. -/
structure ParseAcc where
  program_number : Int
  blocks : List Block
  program_start : Bool
  warnings : List String
deriving DecidableEq

/-- One line of the loop of `Program.parse` (`cnc.py` lines 95-119).
Note the source tests the raw `line`, not `stripped_line`, in
`line.startswith("O")` and `line[1:].isdigit()`. -/
def parseLine (acc : ParseAcc) (line : String) : Except PyErr ParseAcc :=
  let stripped_line := removeWhitespace (stripComments line)
  if stripped_line.data.length > 0 then
    if startsWithChar stripped_line '%' then
      .ok { acc with program_start := !acc.program_start }
    else if acc.program_start then
      if startsWithChar line 'O' then
        if pyIsDigit (line.data.drop 1) then
          -- int(line[1:]) cannot fail here: isdigit guarantees a nonempty
          -- unsigned digit string, whose int() value is its digit value
          .ok { acc with program_number := (digitsVal (line.data.drop 1) : Int) }
        else
          .ok { acc with warnings := acc.warnings ++
            ["Invalid program number " ++ String.mk (line.data.drop 1) ++ "."] }
      else
        (Block.parse stripped_line).map (fun b => { acc with blocks := acc.blocks ++ [b] })
    else .ok acc
  else .ok acc

/-- `Program.parse` (`cnc.py` lines 86-120): fold `parseLine` over the
lines and build the program via `Program.__init__`, also returning the
warnings printed along the way. -/
def Program.parse (data : String) : Except PyErr (Program × List String) :=
  ((splitLines data).foldlM parseLine ⟨-1, [], false, []⟩).map
    (fun acc => (Program.init acc.program_number acc.blocks, acc.warnings))

/-! Derived notions used to state the specification's claims. -/

/-- The token the scan of `Block.parse` is still accumulating when the
line ends: the final token of the line. -/
def finalCommand (data : String) : List Char :=
  data.data.foldl (fun cmd c => if letters.contains c then [c] else cmd ++ [c]) []

/-- Does the word list contain a word for the axis letter `c`? -/
def hasAxisWord (ws : List Word) (c : Char) : Bool :=
  ws.any (fun w => w.letter == c)

/-- The value of the last word for axis letter `c`, or the carried value
`v0` when the list has no such word. -/
def lastAxisVal (ws : List Word) (c : Char) (v0 : PyVal) : PyVal :=
  ws.foldl (fun v w => if w.letter == c then w.number else v) v0

/-- A tool-selection word (`T`). -/
def isToolSelect (w : Word) : Bool := w.letter == 'T'

/-- A linear/rapid-move word (`G0` or `G1`). -/
def isLinearMove (w : Word) : Bool :=
  w.letter == 'G' && (w.number.eqInt 0 || w.number.eqInt 1)

/-- A return-home word (`G28`). -/
def isReturnHome (w : Word) : Bool :=
  w.letter == 'G' && w.number.eqInt 28

/-- An actuator call that moves the machine. -/
def isMotionCall : ActCall → Bool
  | .home => true
  | .move _ _ _ => true
  | .move_x _ => true
  | .move_y _ => true
  | .move_z _ => true
  | _ => false

/-- Modelled from the spec: the command classes named by the §4.1
execution-priority table. -/
inductive CommandClass where
  | feedRate
  | spindleSpeed
  | toolSelect
  | toolChange
  | spindleSwitch
  | coolantSwitch
  | returnHome
  | linearMove
  | programEnd
  | other
deriving DecidableEq

/-- Modelled from the spec: which §4.1 class a (letter, value) pair
belongs to. -/
def classify (letter : Char) (number : PyVal) : CommandClass :=
  if letter = 'F' then .feedRate
  else if letter = 'S' then .spindleSpeed
  else if letter = 'T' then .toolSelect
  else if letter = 'M' then
    if number.eqInt 6 then .toolChange
    else if number.eqInt 3 || number.eqInt 4 || number.eqInt 5 then .spindleSwitch
    else if number.eqInt 7 || number.eqInt 8 || number.eqInt 9 then .coolantSwitch
    else if number.eqInt 30 then .programEnd
    else .other
  else if letter = 'G' then
    if number.eqInt 28 then .returnHome
    else if number.eqInt 0 || number.eqInt 1 then .linearMove
    else .other
  else .other

/-- Modelled from the spec: the rank of each class in the §4.1 fixed total
order `F < S < T < M6 < M3/M4/M5 < M7/M8/M9 < G28 < G0/G1 < M30 < rest`. -/
def CommandClass.rank : CommandClass → Nat
  | .feedRate => 1
  | .spindleSpeed => 2
  | .toolSelect => 3
  | .toolChange => 4
  | .spindleSwitch => 5
  | .coolantSwitch => 6
  | .returnHome => 7
  | .linearMove => 8
  | .programEnd => 9
  | .other => 10

/-- Modelled from the spec: the §4.1 priority of a (letter, value) pair. -/
def specPriority (letter : Char) (number : PyVal) : Nat :=
  (classify letter number).rank

/-- The machine state a fresh `Program` starts from. -/
def freshState : MState := ⟨.str "", .float 0, .float 0, .float 0⟩

/-! ## Helper lemmas -/

theorem except_bind_ok {ε α β : Type _} (a : α) (f : α → Except ε β) :
    (Except.ok a >>= f) = f a := rfl

theorem except_bind_err {ε α β : Type _} (e : ε) (f : α → Except ε β) :
    ((Except.error e : Except ε α) >>= f) = .error e := rfl

theorem except_map_ok {ε α β : Type _} {f : α → β} {x : Except ε α} {b : β}
    (h : x.map f = .ok b) : ∃ a, x = .ok a ∧ f a = b := by
  cases x with
  | error e => simp [Except.map] at h
  | ok a => exact ⟨a, rfl, by simpa [Except.map] using h⟩

theorem except_map_err {ε α β : Type _} {f : α → β} {x : Except ε α} {e : ε}
    (h : x.map f = .error e) : x = .error e := by
  cases x with
  | error f => simpa [Except.map] using h
  | ok a => simp [Except.map] at h

theorem PyVal.eqInt_unique {v : PyVal} {a b : Int}
    (ha : v.eqInt a = true) (hb : v.eqInt b = true) : a = b := by
  cases v with
  | int n =>
    simp only [PyVal.eqInt, beq_iff_eq] at ha hb
    omega
  | float q =>
    simp only [PyVal.eqInt, beq_iff_eq] at ha hb
    have hab : (a : ℚ) = (b : ℚ) := ha.symm.trans hb
    exact_mod_cast hab
  | str s => simp [PyVal.eqInt] at ha

theorem PyVal.eqInt_false_of_ne {v : PyVal} {a b : Int}
    (ha : v.eqInt a = true) (hne : a ≠ b) : v.eqInt b = false := by
  cases hb : v.eqInt b
  · rfl
  · exact absurd (PyVal.eqInt_unique ha hb) hne

theorem insertWord_perm (w : Word) (l : List Word) : List.Perm (insertWord w l) (w :: l) := by
  induction l with
  | nil => rfl
  | cons v vs ih =>
    simp only [insertWord]
    split
    · exact (ih.cons v).trans (List.Perm.swap w v vs)
    · rfl

theorem sortWords_perm (ws : List Word) : List.Perm (sortWords ws) ws := by
  induction ws with
  | nil => rfl
  | cons w ws ih => exact (insertWord_perm w (sortWords ws)).trans (ih.cons w)

theorem insertWord_sorted (w : Word) {l : List Word}
    (h : l.Pairwise (fun a b => a.priority ≤ b.priority)) :
    (insertWord w l).Pairwise (fun a b => a.priority ≤ b.priority) := by
  induction l with
  | nil => simp [insertWord]
  | cons v vs ih =>
    rcases List.pairwise_cons.mp h with ⟨hv, hvs⟩
    simp only [insertWord]
    split
    · refine List.pairwise_cons.mpr ⟨?_, ih hvs⟩
      intro b hb
      rcases List.mem_cons.mp ((insertWord_perm w vs).mem_iff.mp hb) with hb | hb
      · subst hb
        omega
      · exact hv b hb
    · refine List.pairwise_cons.mpr ⟨?_, h⟩
      intro b hb
      rcases List.mem_cons.mp hb with hb | hb
      · subst hb
        omega
      · have := hv b hb
        omega

theorem sortWords_sorted (ws : List Word) :
    (sortWords ws).Pairwise (fun a b => a.priority ≤ b.priority) := by
  induction ws with
  | nil => simp [sortWords]
  | cons w ws ih => exact insertWord_sorted w ih

theorem insertWord_filter (w : Word) (l : List Word) (p : Nat) :
    (insertWord w l).filter (fun v => v.priority == p) =
      (w :: l).filter (fun v => v.priority == p) := by
  induction l with
  | nil => rfl
  | cons v vs ih =>
    simp only [insertWord]
    split
    · rename_i hlt
      by_cases hv : v.priority = p
      · have hw : (w.priority == p) = false := by
          simp only [beq_eq_false_iff_ne]
          omega
        simp [List.filter_cons, hv, hw, ih]
      · have hv' : (v.priority == p) = false := by
          simp only [beq_eq_false_iff_ne]
          exact hv
        simp [List.filter_cons, hv', ih]
    · rfl

theorem sortWords_filter (ws : List Word) (p : Nat) :
    (sortWords ws).filter (fun v => v.priority == p) =
      ws.filter (fun v => v.priority == p) := by
  induction ws with
  | nil => rfl
  | cons w ws ih =>
    rw [sortWords, insertWord_filter, List.filter_cons, List.filter_cons, ih]

theorem wordPriority_linearMove {w : Word} (h : isLinearMove w = true) :
    wordPriority w.letter w.number = 8 := by
  simp only [isLinearMove, Bool.and_eq_true, Bool.or_eq_true, beq_iff_eq] at h
  obtain ⟨hG, h01⟩ := h
  have h28 : w.number.eqInt 28 = false := by
    rcases h01 with h0 | h1
    · exact PyVal.eqInt_false_of_ne h0 (by decide)
    · exact PyVal.eqInt_false_of_ne h1 (by decide)
  rcases h01 with h0 | h1
  · simp [wordPriority, hG, h0, h28]
  · simp [wordPriority, hG, h1, h28]

theorem wordPriority_returnHome {w : Word} (h : isReturnHome w = true) :
    wordPriority w.letter w.number = 7 := by
  simp only [isReturnHome, Bool.and_eq_true, beq_iff_eq] at h
  obtain ⟨hG, h28⟩ := h
  simp [wordPriority, hG, h28]

theorem axisScan_foldl (ws : List Word) (a : AxisScan) :
    ws.foldl axisScanStep a =
      ⟨lastAxisVal ws 'X' a.x, lastAxisVal ws 'Y' a.y, lastAxisVal ws 'Z' a.z,
       a.move_x || hasAxisWord ws 'X', a.move_y || hasAxisWord ws 'Y',
       a.move_z || hasAxisWord ws 'Z'⟩ := by
  induction ws generalizing a with
  | nil => simp [lastAxisVal, hasAxisWord]
  | cons w ws ih =>
    rw [List.foldl_cons, ih]
    simp only [lastAxisVal, hasAxisWord, List.foldl_cons, List.any_cons]
    by_cases hX : w.letter = 'X'
    · simp [axisScanStep, hX, Bool.or_assoc]
    · by_cases hY : w.letter = 'Y'
      · simp [axisScanStep, hX, hY, Bool.or_assoc]
      · by_cases hZ : w.letter = 'Z'
        · simp [axisScanStep, hX, hY, hZ, Bool.or_assoc]
        · have hX' : (w.letter == 'X') = false := by simp [hX]
          have hY' : (w.letter == 'Y') = false := by simp [hY]
          have hZ' : (w.letter == 'Z') = false := by simp [hZ]
          simp [axisScanStep, hX', hY', hZ']

theorem runWord_frame (b : Block) (st : MState) (w : Word)
    (hT : isToolSelect w = false) (hL : isLinearMove w = false)
    (hH : isReturnHome w = false) :
    (runWord b st w).1 = st ∧ ∀ c ∈ (runWord b st w).2, isMotionCall c = false := by
  simp only [isToolSelect] at hT
  cases hS : w.letter == 'S'
  · cases hF : w.letter == 'F'
    · cases hM : w.letter == 'M'
      · cases hG : w.letter == 'G'
        · simp [runWord, hS, hF, hM, hG, hT, isMotionCall]
        · simp only [isLinearMove, hG, Bool.true_and] at hL
          simp only [isReturnHome, hG, Bool.true_and] at hH
          simp [runWord, hS, hF, hM, hG, hT, hL, hH, isMotionCall]
      · simp only [runWord, hS, hF, hM, hT]
        norm_num
        split_ifs <;> simp [isMotionCall]
    · simp [runWord, hS, hF, isMotionCall]
  · simp [runWord, hS, isMotionCall]

theorem wordParse_err_nonempty {cs : List Char} (hne : cs ≠ []) {e : PyErr}
    (h : Word.parse (String.mk cs) = .error e) : e = .valueError := by
  cases cs with
  | nil => exact absurd rfl hne
  | cons l rest =>
    simp only [Word.parse] at h
    have h' := except_map_err h
    split at h'
    · rcases hpf : pyFloat rest with _ | q <;> rw [hpf] at h'
      · exact (Except.error.inj h').symm
      · exact absurd h' (by simp)
    · split at h'
      · exact absurd h' (by simp)
      · rcases hpi : pyInt rest with _ | n <;> rw [hpi] at h'
        · exact (Except.error.inj h').symm
        · exact absurd h' (by simp)

theorem scanStep_ok_command {st : ScanState} {c : Char} {st' : ScanState}
    (h : scanStep st c = .ok st') :
    st'.command = if letters.contains c then [c] else st.command ++ [c] := by
  unfold scanStep at h
  split at h
  · rename_i hc
    split at h
    · obtain ⟨word, _, happ⟩ := except_map_ok h
      rw [← happ, if_pos hc]
      split <;> rfl
    · rw [← Except.ok.inj h, if_pos hc]
  · rename_i hc
    rw [← Except.ok.inj h, if_neg hc]

theorem scanStep_ok_words {st : ScanState} {c : Char} {st' : ScanState}
    (h : scanStep st c = .ok st') (w : Word) (hw : w ∈ st'.words) :
    w ∈ st.words ∨ w.letter ≠ 'N' := by
  unfold scanStep at h
  split at h
  · split at h
    · obtain ⟨word, hparse, happ⟩ := except_map_ok h
      by_cases hN : (word.letter == 'N') = true
      · rw [if_pos hN] at happ
        rw [← happ] at hw
        exact Or.inl hw
      · rw [if_neg hN] at happ
        rw [← happ] at hw
        rcases List.mem_append.mp hw with h1 | h1
        · exact Or.inl h1
        · refine Or.inr ?_
          have : w = word := by simpa using h1
          subst this
          simpa using hN
    · rw [← Except.ok.inj h] at hw
      exact Or.inl hw
  · rw [← Except.ok.inj h] at hw
    exact Or.inl hw

theorem scanStep_err {st : ScanState} {c : Char} {e : PyErr}
    (h : scanStep st c = .error e) : e = .valueError := by
  unfold scanStep at h
  split at h
  · split at h
    · rename_i hlen
      have hp := except_map_err h
      refine wordParse_err_nonempty ?_ hp
      intro hnil
      rw [hnil] at hlen
      simp at hlen
    · exact absurd h (by simp)
  · exact absurd h (by simp)

theorem scanFold_ok_words (cs : List Char) (init st' : ScanState)
    (h : cs.foldlM scanStep init = .ok st')
    (hinit : ∀ w ∈ init.words, w.letter ≠ 'N') :
    ∀ w ∈ st'.words, w.letter ≠ 'N' := by
  induction cs generalizing init with
  | nil =>
    simp only [List.foldlM_nil] at h
    rw [← Except.ok.inj h]
    exact hinit
  | cons c cs ih =>
    rw [List.foldlM_cons] at h
    cases hstep : scanStep init c with
    | error e =>
      rw [hstep, except_bind_err] at h
      exact absurd h (by simp)
    | ok st1 =>
      rw [hstep, except_bind_ok] at h
      refine ih st1 h ?_
      intro w hw
      rcases scanStep_ok_words hstep w hw with h1 | h1
      · exact hinit w h1
      · exact h1

theorem scanFold_ok_command (cs : List Char) (init st' : ScanState)
    (h : cs.foldlM scanStep init = .ok st') :
    st'.command =
      cs.foldl (fun cmd c => if letters.contains c then [c] else cmd ++ [c])
        init.command := by
  induction cs generalizing init with
  | nil =>
    simp only [List.foldlM_nil] at h
    rw [← Except.ok.inj h]
    rfl
  | cons c cs ih =>
    rw [List.foldlM_cons] at h
    cases hstep : scanStep init c with
    | error e =>
      rw [hstep, except_bind_err] at h
      exact absurd h (by simp)
    | ok st1 =>
      rw [hstep, except_bind_ok] at h
      rw [List.foldl_cons, ← scanStep_ok_command hstep]
      exact ih st1 h

theorem scanFold_err (cs : List Char) (init : ScanState) (e : PyErr)
    (h : cs.foldlM scanStep init = .error e) : e = .valueError := by
  induction cs generalizing init with
  | nil =>
    simp only [List.foldlM_nil] at h
    exact Except.noConfusion h
  | cons c cs ih =>
    rw [List.foldlM_cons] at h
    cases hstep : scanStep init c with
    | error f =>
      rw [hstep, except_bind_err] at h
      rw [← Except.error.inj h]
      exact scanStep_err hstep
    | ok st1 =>
      rw [hstep, except_bind_ok] at h
      exact ih st1 h

/-! ## Claims -/

/-- **C4.** Word priority is a pure function of (letter, number), assigned
at parse time; it agrees with the spec's fixed total order
`F < S < T < M6 < M3/M4/M5 < M7/M8/M9 < G28 < G0/G1 < M30 < rest`; and the
word sort used by `Block.parse` is a stable ascending sort by priority:
the output is a permutation of the input, is pairwise ordered by priority,
and keeps the words of each priority tier in their original input order,
whatever the input order was. -/
theorem C4 :
    (∀ (cmd : String) (w : Word), Word.parse cmd = .ok w →
        w.priority = wordPriority w.letter w.number)
    ∧ (∀ (letter : Char) (number : PyVal),
        wordPriority letter number = specPriority letter number)
    ∧ (∀ ws : List Word,
        List.Perm (sortWords ws) ws
        ∧ (sortWords ws).Pairwise (fun a b => a.priority ≤ b.priority)
        ∧ ∀ p, (sortWords ws).filter (fun v => v.priority == p) =
            ws.filter (fun v => v.priority == p)) := by
  refine ⟨?_, ?_, fun ws => ⟨sortWords_perm ws, sortWords_sorted ws, sortWords_filter ws⟩⟩
  · intro cmd w h
    unfold Word.parse at h
    rcases hd : cmd.data with _ | ⟨letter, rest⟩ <;> rw [hd] at h
    · exact absurd h (by simp)
    · obtain ⟨n, _, hf⟩ := except_map_ok h
      rw [← hf]
  · intro letter number
    by_cases hF : letter = 'F'
    · simp [wordPriority, specPriority, classify, CommandClass.rank, hF]
    · by_cases hS : letter = 'S'
      · simp [wordPriority, specPriority, classify, CommandClass.rank, hF, hS]
      · by_cases hT : letter = 'T'
        · simp [wordPriority, specPriority, classify, CommandClass.rank, hF, hS, hT]
        · by_cases hM : letter = 'M'
          · subst hM
            simp only [wordPriority, specPriority, classify]
            norm_num
            simp only [show ('M' : Char) ≠ 'F' from by decide,
              show ('M' : Char) ≠ 'S' from by decide,
              show ('M' : Char) ≠ 'T' from by decide,
              show ('M' : Char) ≠ 'G' from by decide,
              if_neg, false_and, if_false]
            split_ifs <;> rfl
          · by_cases hG : letter = 'G'
            · subst hG
              simp only [wordPriority, specPriority, classify]
              norm_num
              simp only [show ('G' : Char) ≠ 'F' from by decide,
                show ('G' : Char) ≠ 'S' from by decide,
                show ('G' : Char) ≠ 'T' from by decide,
                show ('G' : Char) ≠ 'M' from by decide,
                if_neg, false_and, if_false]
              split_ifs <;> rfl
            · simp [wordPriority, specPriority, classify, CommandClass.rank,
                hF, hS, hT, hM, hG]

/-- **C4, witness.** The word parsed from `G1` carries the priority the
priority function assigns to its letter and number. -/
theorem C4_witness :
    (Word.mk 'G' (.int 1) 8).priority =
      wordPriority (Word.mk 'G' (.int 1) 8).letter (Word.mk 'G' (.int 1) 8).number :=
  C4.1 "G1" (Word.mk 'G' (.int 1) 8) (by decide)

/-- **C6.** Executing a `T` word only stages the tool in the carried state
and makes no actuator call; executing an `M6` word calls `change_tool`
with the currently staged tool and changes nothing else; and the
single-word program block `M6` with the fresh carried state calls
`change_tool("")` without failing. -/
theorem C6 :
    (∀ (b : Block) (st : MState) (w : Word), w.letter = 'T' →
        runWord b st w = ({ st with tool := w.number }, []))
    ∧ (∀ (b : Block) (st : MState) (w : Word), w.letter = 'M' →
        w.number.eqInt 6 = true →
        runWord b st w = (st, [.change_tool st.tool]))
    ∧ (Block.parse "M6").map (fun b => b.run freshState) =
        .ok (freshState, [.change_tool (.str "")]) := by
  refine ⟨?_, ?_, by decide⟩
  · intro b st w hT
    simp [runWord, hT]
  · intro b st w hM h6
    have h3 := PyVal.eqInt_false_of_ne h6 (show (6 : Int) ≠ 3 by decide)
    have h4 := PyVal.eqInt_false_of_ne h6 (show (6 : Int) ≠ 4 by decide)
    have h5 := PyVal.eqInt_false_of_ne h6 (show (6 : Int) ≠ 5 by decide)
    simp [runWord, hM, h6, h3, h4, h5]

/-- **C6, witness.** A concrete `T` word stages the tool silently, and a
concrete `M6` word applies the staged tool. -/
theorem C6_witness :
    runWord ⟨.int (-1), []⟩ freshState ⟨'T', .str "01", 3⟩ =
      ({ freshState with tool := .str "01" }, [])
    ∧ runWord ⟨.int (-1), []⟩ { freshState with tool := .str "01" } ⟨'M', .int 6, 4⟩ =
      ({ freshState with tool := .str "01" }, [.change_tool (.str "01")]) :=
  ⟨C6.1 ⟨.int (-1), []⟩ freshState ⟨'T', .str "01", 3⟩ rfl,
   C6.2.1 ⟨.int (-1), []⟩ { freshState with tool := .str "01" } ⟨'M', .int 6, 4⟩ rfl (by decide)⟩

/-- **C7.** Executing a `G28` word resets the carried `X`, `Y`, `Z` to `0`
and calls `home()`; `G28` carries priority `7` while `G0`/`G1` carry
priority `8`; and in any priority-correct word list sorted by
`Block.parse`'s sort, no `G0`/`G1` word precedes a `G28` word, so within a
block `G28` executes before any `G0`/`G1`. -/
theorem C7 :
    (∀ (b : Block) (st : MState) (w : Word), w.letter = 'G' →
        w.number.eqInt 28 = true →
        runWord b st w =
          ({ st with x := .float 0, y := .float 0, z := .float 0 }, [.home]))
    ∧ wordPriority 'G' (.int 28) = 7
    ∧ wordPriority 'G' (.int 0) = 8 ∧ wordPriority 'G' (.int 1) = 8
    ∧ ∀ ws : List Word, (∀ w ∈ ws, w.priority = wordPriority w.letter w.number) →
        (sortWords ws).Pairwise
          (fun a b => isLinearMove a = true → isReturnHome b = false) := by
  refine ⟨?_, by decide, by decide, by decide, ?_⟩
  · intro b st w hG h28
    have h0 := PyVal.eqInt_false_of_ne h28 (show (28 : Int) ≠ 0 by decide)
    have h1 := PyVal.eqInt_false_of_ne h28 (show (28 : Int) ≠ 1 by decide)
    have h17 := PyVal.eqInt_false_of_ne h28 (show (28 : Int) ≠ 17 by decide)
    have h21 := PyVal.eqInt_false_of_ne h28 (show (28 : Int) ≠ 21 by decide)
    simp [runWord, hG, h28, h0, h1, h17, h21]
  · intro ws hpc
    refine (sortWords_sorted ws).imp_of_mem ?_
    intro a b ha hb hle hlin
    by_contra hret
    rw [Bool.not_eq_false] at hret
    have hma : a ∈ ws := (sortWords_perm ws).mem_iff.mp ha
    have hmb : b ∈ ws := (sortWords_perm ws).mem_iff.mp hb
    have hpa : a.priority = 8 := by rw [hpc a hma]; exact wordPriority_linearMove hlin
    have hpb : b.priority = 7 := by rw [hpc b hmb]; exact wordPriority_returnHome hret
    omega

/-- **C7, witness.** A concrete `G28` word homes the machine from a moved
state, and in a concrete priority-correct block containing `G1` and `G28`
the sorted order never puts the move before the homing. -/
theorem C7_witness :
    runWord ⟨.int (-1), []⟩ ⟨.str "", .float 5, .float 6, .float 7⟩ ⟨'G', .int 28, 7⟩ =
      (⟨.str "", .float 0, .float 0, .float 0⟩, [.home])
    ∧ (sortWords [⟨'G', .int 1, 8⟩, ⟨'G', .int 28, 7⟩]).Pairwise
        (fun a b => isLinearMove a = true → isReturnHome b = false) :=
  ⟨C7.1 ⟨.int (-1), []⟩ ⟨.str "", .float 5, .float 6, .float 7⟩ ⟨'G', .int 28, 7⟩ rfl (by decide),
   C7.2.2.2.2 [⟨'G', .int 1, 8⟩, ⟨'G', .int 28, 7⟩] (by decide)⟩


/-- **C1, counterexample.** The claim says two executions of the same
parsed `Program` produce identical call sequences because the carried
state is created fresh per run.  In the code the carried state lives on
the `Program` object and `Program.run` mutates it in place, so for the
program `%  G1X2Y2  G1Z9  %` the first run emits
`move(2,2,0); move_z(9)` but the second run on the same object starts at
`z = 9` and emits `move(2,2,9); move_z(9)`. -/
theorem C1_counterexample :
    (Program.parse "%\nG1X2Y2\nG1Z9\n%").map
        (fun pr => ((pr.1.run).2, ((pr.1.run).1.run).2)) =
      .ok ([.move (.float 2) (.float 2) (.float 0), .move_z (.float 9)],
           [.move (.float 2) (.float 2) (.float 9), .move_z (.float 9)]) ∧
    ([ActCall.move (.float 2) (.float 2) (.float 0), ActCall.move_z (.float 9)] ≠
      [ActCall.move (.float 2) (.float 2) (.float 9), ActCall.move_z (.float 9)]) := by
  constructor
  · decide
  · decide

/-- **C1, amended.** The carried machine state is created when the
`Program` object is constructed and persists across `Program.run` calls on
that object, so a second run continues from the first run's final state
and may emit different calls.  Two executions do produce identical call
sequences whenever they start from the same blocks and the same carried
state — in particular when each run executes a freshly constructed
(e.g. freshly parsed) `Program` over the same blocks, independently of the
program number. -/
theorem C1_amended (p q : Program) (hb : p.blocks = q.blocks)
    (ht : p.tool = q.tool) (hx : p.x = q.x) (hy : p.y = q.y) (hz : p.z = q.z) :
    (p.run).2 = (q.run).2 := by
  simp only [Program.run, hb, ht, hx, hy, hz]

/-- **C1, witness.** Two freshly constructed programs over the same block
list (differing in program number) emit the same calls. -/
theorem C1_witness :
    ((Program.init 5 [⟨.int (-1), [⟨'G', .int 28, 7⟩]⟩]).run).2 =
      ((Program.init 7 [⟨.int (-1), [⟨'G', .int 28, 7⟩]⟩]).run).2 :=
  C1_amended _ _ rfl rfl rfl rfl rfl

/-- **C2, counterexample.** The claim says a parsed `Block` never contains
a `Word` with letter `N`, even when the `N` token is the last token of the
line.  `Block.parse` parses the final accumulated token unconditionally
(`cnc.py` line 157), skipping the `N` check, so `X5N10` parses to a block
whose word list contains the word `N10` and whose identifier stays `-1`. -/
theorem C2_counterexample :
    Block.parse "X5N10" =
      .ok ⟨.int (-1), [⟨'X', .float 5, 10⟩, ⟨'N', .int 10, 10⟩]⟩ ∧
    (Word.mk 'N' (.int 10) 10).letter = 'N' := by
  constructor
  · decide
  · rfl

/-- **C3, counterexample.** The claim says an `N` token with a non-digit
literal is a non-fatal warning that leaves the block identifier at `-1`.
In the code the `int()` conversion inside `Word.parse` raises an uncaught
`ValueError`, so `Block.parse "N1aG0"` aborts with an error instead of
returning a block. -/
theorem C3_counterexample :
    Block.parse "N1aG0" = .error .valueError := rfl

/-- **C3, amended.** An `N` token whose literal does not parse as a Python
integer makes `Word.parse` fail with a `ValueError`; `Block.parse`
propagates the failure, so parsing aborts — no warning is logged and the
block identifier is never set.  (The warning-and-sentinel policy exists
only for the `O` program-number directive in `Program.parse`.) -/
theorem C3_amended (lit : List Char) (h : pyInt lit = none) :
    Word.parse (String.mk ('N' :: lit)) = .error .valueError := by
  simp [Word.parse, h, Except.map]

/-- **C3, witness.** The literal `1a` does not parse as an integer, and
the word `N1a` fails with a `ValueError`. -/
theorem C3_witness :
    Word.parse (String.mk ('N' :: "1a".data)) = .error .valueError :=
  C3_amended "1a".data (by decide)

/-- **C8, code bug.** The spec says the program-number directive is
detected on the stripped line (comments and whitespace removed).  The code
computes `stripped_line` but then tests the raw `line` in
`line.startswith("O")` and `line[1:].isdigit()` (`cnc.py` lines 113-114).
On the body line `O12 3` the stripped remainder `123` is all digits, so
per the spec the program number should become `123`; the code instead
checks the raw remainder `12 3`, prints the warning and leaves the program
number at the sentinel `-1`. -/
theorem C8_bug :
    Program.parse "%\nO12 3\n%" =
      .ok (Program.init (-1) [], ["Invalid program number 12 3."]) ∧
    pyIsDigit ((removeWhitespace (stripComments "O12 3")).data.drop 1) = true := by
  constructor
  · rfl
  · rfl

/-- **C5.** Executing a `G0` or `G1` word scans the whole block's words
for `X`/`Y`/`Z` literals: the carried coordinates become the value of the
last word of each specified axis (unspecified axes keep their carried
value), and the emitted call is one `move(x, y, z)` with the full triple
when two or more axes are specified, the corresponding single-axis move
when exactly one axis is specified, and nothing when none is. -/
theorem C5 (b : Block) (st : MState) (w : Word) (hG : w.letter = 'G')
    (h01 : (w.number.eqInt 0 || w.number.eqInt 1) = true) :
    runWord b st w =
      ({ st with x := lastAxisVal b.words 'X' st.x,
                 y := lastAxisVal b.words 'Y' st.y,
                 z := lastAxisVal b.words 'Z' st.z },
       if 2 ≤ (cond (hasAxisWord b.words 'X') 1 0)
            + (cond (hasAxisWord b.words 'Y') 1 0)
            + (cond (hasAxisWord b.words 'Z') 1 0) then
         [.move (lastAxisVal b.words 'X' st.x) (lastAxisVal b.words 'Y' st.y)
            (lastAxisVal b.words 'Z' st.z)]
       else if hasAxisWord b.words 'X' then [.move_x (lastAxisVal b.words 'X' st.x)]
       else if hasAxisWord b.words 'Y' then [.move_y (lastAxisVal b.words 'Y' st.y)]
       else if hasAxisWord b.words 'Z' then [.move_z (lastAxisVal b.words 'Z' st.z)]
       else []) := by
  have key := axisScan_foldl b.words ⟨st.x, st.y, st.z, false, false, false⟩
  simp only [Bool.false_or] at key
  simp [runWord, hG, h01, key]
  cases hx : hasAxisWord b.words 'X' <;> cases hy : hasAxisWord b.words 'Y' <;>
    cases hz : hasAxisWord b.words 'Z' <;> simp_all

/-- **C5, witness.** The single-axis block `G1X5` executed from the fresh
state moves only the X axis, with one `move_x(5)` call. -/
theorem C5_witness :
    runWord ⟨.int (-1), [⟨'G', .int 1, 8⟩, ⟨'X', .float 5, 10⟩]⟩ freshState
        ⟨'G', .int 1, 8⟩ =
      ({ freshState with x := .float 5 }, [.move_x (.float 5)]) := by
  rw [C5 ⟨.int (-1), [⟨'G', .int 1, 8⟩, ⟨'X', .float 5, 10⟩]⟩ freshState
    ⟨'G', .int 1, 8⟩ rfl (by decide)]
  decide

/-- **C9.** Executing a block none of whose words is a tool selection
(`T`), a return-home (`G28`) or a linear/rapid move (`G0`/`G1`) leaves the
carried machine state unchanged and emits no motion call; in particular
`X`/`Y`/`Z` words without an accompanying `G0`/`G1` neither update the
carried position nor move the machine. -/
theorem C9 (b : Block) (st : MState)
    (h : ∀ w ∈ b.words,
        isToolSelect w = false ∧ isLinearMove w = false ∧ isReturnHome w = false) :
    (b.run st).1 = st ∧ ∀ c ∈ (b.run st).2, isMotionCall c = false := by
  have main : ∀ (ws : List Word),
      (∀ w ∈ ws, isToolSelect w = false ∧ isLinearMove w = false ∧ isReturnHome w = false) →
      ∀ (acc : List ActCall), (∀ c ∈ acc, isMotionCall c = false) →
      (ws.foldl (fun p w =>
        let r := runWord b p.1 w
        (r.1, p.2 ++ r.2)) (st, acc)).1 = st
      ∧ ∀ c ∈ (ws.foldl (fun p w =>
          let r := runWord b p.1 w
          (r.1, p.2 ++ r.2)) (st, acc)).2, isMotionCall c = false := by
    intro ws hws
    induction ws with
    | nil => exact fun acc hacc => ⟨rfl, hacc⟩
    | cons w ws ih =>
      intro acc hacc
      obtain ⟨hw1, hw2⟩ := runWord_frame b st w (hws w (List.mem_cons_self w ws)).1
        (hws w (List.mem_cons_self w ws)).2.1 (hws w (List.mem_cons_self w ws)).2.2
      rw [List.foldl_cons]
      have hstep : (let r := runWord b (st, acc).1 w
          ((r.1 : MState), ((st, acc).2 ++ r.2 : List ActCall))) =
          (st, acc ++ (runWord b st w).2) := by
        show ((runWord b st w).1, acc ++ (runWord b st w).2) = _
        rw [hw1]
      rw [hstep]
      refine ih (fun v hv => hws v (List.mem_cons_of_mem w hv)) (acc ++ (runWord b st w).2) ?_
      intro c hc
      rcases List.mem_append.mp hc with hc | hc
      · exact hacc c hc
      · exact hw2 c hc
  exact main b.words h [] (by simp)

/-- **C9, witness.** A block of bare `X`, `Y` and `F` words leaves the
fresh state unchanged and moves nothing (the `F` word only sets the feed
rate). -/
theorem C9_witness :
    ((Block.mk (.int (-1))
        [⟨'F', .float 2, 1⟩, ⟨'X', .float 5, 10⟩, ⟨'Y', .float 3, 10⟩]).run freshState).1 =
      freshState
    ∧ ∀ c ∈ ((Block.mk (.int (-1))
        [⟨'F', .float 2, 1⟩, ⟨'X', .float 5, 10⟩, ⟨'Y', .float 3, 10⟩]).run freshState).2,
        isMotionCall c = false :=
  C9 (Block.mk (.int (-1))
    [⟨'F', .float 2, 1⟩, ⟨'X', .float 5, 10⟩, ⟨'Y', .float 3, 10⟩]) freshState (by decide)




/-- **C2, amended.** Every `N` token that is closed by a following
recognized letter is extracted into the block identifier and never stored
as a `Word`; only the line's final token, which `Block.parse` parses and
appends unconditionally, can put a letter-`N` word into the block: if a
parsed block contains a word with letter `N`, the final token of the line
starts with `N`. -/
theorem C2_amended (s : String) (b : Block) (hp : Block.parse s = .ok b)
    (w : Word) (hw : w ∈ b.words) (hN : w.letter = 'N') :
    (finalCommand s).head? = some 'N' := by
  unfold Block.parse at hp
  cases hfold : s.data.foldlM scanStep ⟨.int (-1), [], []⟩ with
  | error e =>
    rw [hfold, except_bind_err] at hp
    exact absurd hp (by simp)
  | ok st =>
    rw [hfold, except_bind_ok] at hp
    cases hwp : Word.parse (String.mk st.command) with
    | error e =>
      rw [hwp, except_bind_err] at hp
      exact absurd hp (by simp)
    | ok word =>
      rw [hwp, except_bind_ok] at hp
      have hb : Block.mk st.block_number (sortWords (st.words ++ [word])) = b :=
        Except.ok.inj hp
      rw [← hb] at hw
      have hmem : w ∈ st.words ++ [word] := (sortWords_perm _).mem_iff.mp hw
      have hcmd : finalCommand s = st.command :=
        (scanFold_ok_command s.data _ _ hfold).symm
      rcases List.mem_append.mp hmem with h1 | h1
      · exact absurd hN (scanFold_ok_words s.data _ _ hfold (by simp) w h1)
      · have hww : w = word := by simpa using h1
        subst hww
        rcases hcnil : st.command with _ | ⟨l, rest⟩
        · rw [hcnil] at hwp
          exact absurd hwp (by simp [Word.parse])
        · rw [hcnil] at hwp
          simp only [Word.parse] at hwp
          obtain ⟨n, _, hf⟩ := except_map_ok hwp
          have hl : w.letter = l := by rw [← hf]
          rw [hcmd, hcnil]
          rw [← hl, hN]
          rfl

/-- **C2, amended witness.** In `X5N10` the `N` token is the final token,
and it indeed starts with `N`. -/
theorem C2_witness : (finalCommand "X5N10").head? = some 'N' :=
  C2_amended "X5N10"
    ⟨.int (-1), [⟨'X', .float 5, 10⟩, ⟨'N', .int 10, 10⟩]⟩ (by decide)
    ⟨'N', .int 10, 10⟩ (by decide) rfl

/-- **C10.** `Block.parse` parses the final accumulated token
unconditionally, so on every nonempty line whose last character is one of
the recognized letters `X`, `Y`, `Z` or `F` — leaving the final token as
that letter with an empty literal — `Block.parse` fails with the
`ValueError` of the number conversion instead of returning a block. -/
theorem C10 (s : String) (cs : List Char) (c : Char) (hs : s.data = cs ++ [c])
    (hc : c = 'X' ∨ c = 'Y' ∨ c = 'Z' ∨ c = 'F') :
    Block.parse s = .error .valueError := by
  have hcl : letters.contains c = true := by
    rcases hc with h | h | h | h <;> subst h <;> decide
  have hfin : Word.parse (String.mk [c]) = .error .valueError := by
    rcases hc with h | h | h | h <;> subst h <;> decide
  unfold Block.parse
  rw [hs, List.foldlM_append]
  cases hfold : cs.foldlM scanStep ⟨.int (-1), [], []⟩ with
  | error e =>
    obtain rfl : e = .valueError := scanFold_err cs _ e hfold
    rfl
  | ok st =>
    rw [except_bind_ok]
    simp only [List.foldlM_cons, List.foldlM_nil]
    unfold scanStep
    rw [if_pos hcl]
    by_cases hlen : st.command.length > 0
    · rw [if_pos hlen]
      cases hwp : Word.parse (String.mk st.command) with
      | error e =>
        have he : e = .valueError := by
          refine wordParse_err_nonempty ?_ hwp
          intro hnil
          rw [hnil] at hlen
          simp at hlen
        subst he
        rfl
      | ok word =>
        cases hNw : word.letter == 'N' <;>
          simp [Except.map, hNw, except_bind_ok, hfin, except_bind_err]
    · rw [if_neg hlen]
      simp [except_bind_ok, hfin, except_bind_err]

/-- **C10, witness.** The line `G1X`, ending in the letter `X`, fails to
parse with a `ValueError`. -/
theorem C10_witness : Block.parse "G1X" = .error .valueError :=
  C10 "G1X" ['G', '1'] 'X' rfl (Or.inl rfl)


end Cnc
